import Mathlib

/-!
Verification of the depth-frame processing pipeline of `bevy-kinect`
(`src/main.rs`), shallowly embedded in Lean.

Conventions of the embedding:
* `u16` depth samples are modelled as `ℕ` (all arithmetic on them in the
  source — comparison with 400, division by 8, the `as u8` cast — is
  non-negative and overflow-free except for the `as u8` cast, which is
  modelled explicitly as `% 256`).
* `f32`/`f64` scalars are modelled as `ℚ`; the screen positions produced by
  the blob locator are small integers (`≤ 639`), so their `f32` images are
  exact, and the claims about the coordinate mapper concern the algebraic
  shape of the computation.
* A Rust panic (a failed `unwrap`, or a panicking `Array2D` construction)
  is modelled by `none` / `Except.error`.
* `Array2D::from_iter_row_major(data.iter(), 480, 640)` (crate `array2d`)
  takes the first `480 * 640` elements of the iterator and panics when the
  iterator yields fewer; element `(row, col)` of the result is
  `data[row * 640 + col]`.
-/

/-- Width of a depth frame (the source hard-codes 640). -/
def frameW : ℕ := 640

/-- Height of a depth frame (the source hard-codes 480). -/
def frameH : ℕ := 480

/-- Source `main.rs` line 210/226/242/258: a sample is "close" when its depth value
is strictly below 400 (`if k < &&400`). -/
def isClose (v : ℕ) : Bool := decide (v < 400)

/-- Column `i` of the row-major frame contains a close sample: the source's
inner loop `for k in arr_2d.column_iter(i)` hitting `k < &&400`.  Indices are
in range whenever the frame has `480 * 640` samples, so the out-of-range
default 400 (not close) is never consulted by guarded callers. -/
def colHasClose (data : List ℕ) (i : ℕ) : Bool :=
  (List.range 480).any fun r => isClose (data.getD (r * 640 + i) 400)

/-- Row `i` of the row-major frame contains a close sample: the source's
inner loop `for k in arr_2d.row_iter(i)`. -/
def rowHasClose (data : List ℕ) (i : ℕ) : Bool :=
  (List.range 640).any fun c => isClose (data.getD (i * 640 + c) 400)

/-- Source `main.rs` lines 209-220: first column (left to right) containing a close
sample; stays at its initial value 0 when none does. -/
def left_most (data : List ℕ) : ℕ :=
  ((List.range 640).find? (colHasClose data)).getD 0

/-- Source `main.rs` lines 225-236: first column (right to left, `(0..640).rev()`)
containing a close sample; 0 when none does. -/
def right_most (data : List ℕ) : ℕ :=
  ((List.range 640).reverse.find? (colHasClose data)).getD 0

/-- Source `main.rs` lines 241-252: first row (top to bottom) containing a close
sample; 0 when none does. -/
def top_most (data : List ℕ) : ℕ :=
  ((List.range 480).find? (rowHasClose data)).getD 0

/-- Source `main.rs` lines 257-268: first row (bottom to top) containing a close
sample; 0 when none does. -/
def bottom_most (data : List ℕ) : ℕ :=
  ((List.range 480).reverse.find? (rowHasClose data)).getD 0

/-- Source `main.rs` lines 198-274, `center_of_close_blob`.  Each of the four scans
rebuilds `Array2D::from_iter_row_major(data.iter(), 480, 640)`, which panics
(modelled as `none`) when the slice holds fewer than `480 * 640` samples.
Otherwise the result is
`Vec2::new(((left_most + right_most) / 2).into(), ((top_most + bottom_most) / 2).into())`;
the `u16` sums are at most `639 + 639` so they do not wrap, and `/ 2` is
`u16` (truncating) division, i.e. `ℕ` division here.  The `Vec2` components
are the exact `f32` images of the returned naturals. -/
def center_of_close_blob (data : List ℕ) : Option (ℕ × ℕ) :=
  if data.length < 480 * 640 then none
  else some ((left_most data + right_most data) / 2,
             (top_most data + bottom_most data) / 2)

/-- Source `main.rs` lines 145-153, the loop body of `update_image_from_depth_data`:
for each `measurement` push the four bytes
`0, 0, 0, (measurement / 8) as u8`.  The `as u8` cast truncates the `u16`
quotient to its low byte, i.e. `% 256`. -/
def depthToPixels : List ℕ → List ℕ
  | [] => []
  | m :: rest => 0 :: 0 :: 0 :: (m / 8 % 256) :: depthToPixels rest

/-- Source `main.rs` lines 133-159, `update_image_from_depth_data`: when the held
frame is empty the function returns before touching the image, otherwise it
replaces the image data with the freshly built pixel vector.  (The image
handle is assumed present, as at runtime.) -/
def update_image_from_depth_data (data buffer : List ℕ) : List ℕ :=
  if data.length = 0 then buffer else depthToPixels data

/-- Model of `glam`'s `Vec2`, a 2D vector, over `ℚ`. -/
structure Vec2 where
  x : ℚ
  y : ℚ
deriving DecidableEq

/-- Model of `glam`'s `Vec3`, a 3D vector, over `ℚ`. -/
structure Vec3 where
  x : ℚ
  y : ℚ
  z : ℚ
deriving DecidableEq

/-- Model of `glam`'s `Vec4`, a 4D vector, over `ℚ`. -/
structure Vec4 where
  x : ℚ
  y : ℚ
  z : ℚ
  w : ℚ
deriving DecidableEq

/-- Column-major 4x4 matrix over `ℚ`, modelling `glam`'s `Mat4`. -/
structure Mat4 where
  xAxis : Vec4
  yAxis : Vec4
  zAxis : Vec4
  wAxis : Vec4
deriving DecidableEq

/-- Matrix application `Mat4 * Vec4` (glam: `x_axis * v.x + y_axis * v.y +
z_axis * v.z + w_axis * v.w`). -/
def mulVec4 (m : Mat4) (v : Vec4) : Vec4 :=
  ⟨m.xAxis.x * v.x + m.yAxis.x * v.y + m.zAxis.x * v.z + m.wAxis.x * v.w,
   m.xAxis.y * v.x + m.yAxis.y * v.y + m.zAxis.y * v.z + m.wAxis.y * v.w,
   m.xAxis.z * v.x + m.yAxis.z * v.y + m.zAxis.z * v.z + m.wAxis.z * v.w,
   m.xAxis.w * v.x + m.yAxis.w * v.y + m.zAxis.w * v.z + m.wAxis.w * v.w⟩

/-- Matrix product `Mat4 * Mat4` (column by column). -/
def mat4Mul (a b : Mat4) : Mat4 :=
  ⟨mulVec4 a b.xAxis, mulVec4 a b.yAxis, mulVec4 a b.zAxis, mulVec4 a b.wAxis⟩

/-- The identity matrix. -/
def id4 : Mat4 :=
  ⟨⟨1, 0, 0, 0⟩, ⟨0, 1, 0, 0⟩, ⟨0, 0, 1, 0⟩, ⟨0, 0, 0, 1⟩⟩

/-- Model of `glam`'s `Mat4::project_point3`: extend the point with `w = 1`,
multiply, and divide the first three components by the resulting `w`
(perspective correction). -/
def projectPoint3 (m : Mat4) (p : Vec3) : Vec3 :=
  let r := mulVec4 m ⟨p.x, p.y, p.z, 1⟩
  ⟨r.x / r.w, r.y / r.w, r.z / r.w⟩

/-- Source `main.rs` lines 178-190, the coordinate-mapping tail of
`move_crosshair_to_pos`: normalize the (already flipped) screen position to
NDC, invert projection and camera transform, project at depth `z = -1`, and
truncate to 2D.  `m` is the camera world matrix
(`camera_transform.compute_matrix()`), `pinv` the inverted projection matrix
(`camera.projection_matrix().inverse()`). -/
def mapScreenToWorld (sp : Vec2) (m pinv : Mat4) : Vec2 :=
  let ndc : Vec2 := ⟨sp.x / 640 * 2 - 1, sp.y / 480 * 2 - 1⟩
  let world := projectPoint3 (mat4Mul m pinv) ⟨ndc.x, ndc.y, -1⟩
  ⟨world.x, world.y⟩

/-- Source `main.rs` lines 172-190 as a function of the raw blob screen position:
flip vertically (`screen_pos.y = (screen_pos.y - 480.0).abs()`), reject when
`screen_pos.x < 0.1` (`none`, no update), otherwise map to world
coordinates. -/
def coordinateMapper (x y : ℚ) (m pinv : Mat4) : Option Vec2 :=
  let yFlip := |y - 480|
  if x < 1 / 10 then none
  else some (mapScreenToWorld ⟨x, yFlip⟩ m pinv)

/-- Source `main.rs` lines 161-196, `move_crosshair_to_pos`, acting on the
crosshair translation `cur` (its x/y components).  Empty held frame: early
return, translation untouched.  Otherwise the blob center is computed (a
panic of the scans propagates, `none`), flipped and mapped; a rejected
position leaves the translation untouched. -/
def move_crosshair_to_pos (data : List ℕ) (m pinv : Mat4) (cur : Vec2) :
    Option Vec2 :=
  if data.length = 0 then some cur
  else
    match center_of_close_blob data with
    | none => none
    | some c =>
      match coordinateMapper (c.1 : ℚ) (c.2 : ℚ) m pinv with
      | none => some cur
      | some w => some w

/-- Source `main.rs` lines 117-131, `read_depth_data`: a non-blocking
`try_recv` on the depth stream; a received frame replaces the held one,
otherwise the held frame is kept. -/
def read_depth_data (recv : Option (List ℕ)) (held : List ℕ) : List ℕ :=
  match recv with
  | some d => d
  | none => held

/-- The per-tick pipeline state: held depth frame, published pixel buffer,
crosshair translation (x/y). -/
structure PipelineState where
  held : List ℕ
  buffer : List ℕ
  crosshair : Vec2
deriving DecidableEq

/-- One scheduler tick of the pipeline systems over the held state:
`read_depth_data`, then `update_image_from_depth_data`, then
`move_crosshair_to_pos` (a panic inside the blob scan propagates as
`none`).  `recv` is what `try_recv` yields this tick, `m`/`pinv` the current
camera matrices. -/
def tick (recv : Option (List ℕ)) (m pinv : Mat4) (s : PipelineState) :
    Option PipelineState :=
  match move_crosshair_to_pos (read_depth_data recv s.held) m pinv
      s.crosshair with
  | none => none
  | some c =>
    some ⟨read_depth_data recv s.held,
          update_image_from_depth_data (read_depth_data recv s.held) s.buffer,
          c⟩

/-- The Kinect device as seen through the tilt command surface:
`get_tilt_degree` and `set_tilt_degree` may fail, and a successful
`set_tilt_degree v` leaves the device reading `v`.  Degrees (`f64`) are
modelled as `ℚ`. -/
structure Device where
  tilt : ℚ
  getFails : Bool
  setFails : ℚ → Bool

/-- Device query `get_tilt_degree() -> Result<f64, _>`. -/
def get_tilt_degree (d : Device) : Except Unit ℚ :=
  if d.getFails then Except.error () else Except.ok d.tilt

/-- Device command `set_tilt_degree(v) -> Result<(), _>`; on success the device tilt
becomes `v`. -/
def set_tilt_degree (d : Device) (v : ℚ) : Except Unit Device :=
  if d.setFails v then Except.error () else Except.ok { d with tilt := v }

/-- The key events seen by `keyboard_input` this tick (`just_pressed` on
`Down` and `Up`). -/
structure KeyInput where
  down : Bool
  up : Bool

/-- Source `main.rs` lines 276-286, `keyboard_input`.  Both device commands are
`.unwrap()`ed, so a failing command panics — modelled as `none`.  On success
the function returns the device together with the list of issued
`set_tilt_degree` arguments.  The `Down` branch runs first, as in the
source. -/
def keyboard_input (keys : KeyInput) (dev : Device) :
    Option (Device × List ℚ) :=
  let afterDown :=
    if keys.down then
      match get_tilt_degree dev with
      | Except.error _ => none
      | Except.ok t =>
        match set_tilt_degree dev (t - 5) with
        | Except.error _ => none
        | Except.ok d1 => some (d1, [t - 5])
    else some (dev, [])
  match afterDown with
  | none => none
  | some (d1, log1) =>
    if keys.up then
      match get_tilt_degree d1 with
      | Except.error _ => none
      | Except.ok t =>
        match set_tilt_degree d1 (t + 5) with
        | Except.error _ => none
        | Except.ok d2 => some (d2, log1 ++ [t + 5])
    else some (d1, log1)

/-- C4's wording of the alpha channel, modelled from the spec: `floor
(sample / 8)` clamped into `[0, 255]`. -/
def specAlpha (sample : ℕ) : ℕ := min (sample / 8) 255

/-! ### List helper lemmas -/

lemma getD_replicate (a d : ℕ) : ∀ (n i : ℕ), i < n →
    (List.replicate n a).getD i d = a := by
  intro n
  induction n with
  | zero => intro i h; omega
  | succ n ih =>
    intro i hi
    cases i with
    | zero => simp [List.replicate_succ]
    | succ j =>
      rw [List.replicate_succ, List.getD_cons_succ]
      exact ih j (by omega)

lemma find?_range'_eq (p : ℕ → Bool) (l : ℕ) :
    ∀ (n s : ℕ), s ≤ l → l < s + n → p l = true →
    (∀ i, s ≤ i → i < l → p i = false) →
    (List.range' s n).find? p = some l := by
  intro n
  induction n with
  | zero => intro s h1 h2 _ _; omega
  | succ n ih =>
    intro s h1 h2 hp hmin
    rw [List.range'_succ]
    by_cases hs : s = l
    · subst hs
      exact List.find?_cons_of_pos _ hp
    · rw [List.find?_cons_of_neg _ (by simp [hmin s le_rfl (by omega : s < l)])]
      exact ih (s + 1) (by omega) (by omega) hp
        (fun i hi1 hi2 => hmin i (by omega) hi2)

lemma find?_range_eq (p : ℕ → Bool) (n l : ℕ) (hl : l < n) (hp : p l = true)
    (hmin : ∀ i, i < l → p i = false) :
    (List.range n).find? p = some l := by
  rw [List.range_eq_range']
  exact find?_range'_eq p l n 0 (Nat.zero_le _) (by omega) hp
    (fun i _ hi => hmin i hi)

lemma find?_reverse_range_eq (p : ℕ → Bool) :
    ∀ (n l : ℕ), l < n → p l = true →
    (∀ i, l < i → i < n → p i = false) →
    (List.range n).reverse.find? p = some l := by
  intro n
  induction n with
  | zero => intro l h; omega
  | succ n ih =>
    intro l hl hp hmax
    rw [List.range_succ, List.reverse_append, List.reverse_singleton,
      List.singleton_append]
    by_cases h : l = n
    · subst h
      exact List.find?_cons_of_pos _ hp
    · rw [List.find?_cons_of_neg _ (by simp [hmax n (by omega) (by omega)])]
      exact ih l (by omega) hp (fun i hi1 hi2 => hmax i hi1 (by omega))

lemma find?_range_none (p : ℕ → Bool) (n : ℕ)
    (h : ∀ i, i < n → p i = false) : (List.range n).find? p = none := by
  rw [List.find?_eq_none]
  intro x hx
  rw [List.mem_range] at hx
  simp [h x hx]

lemma find?_reverse_range_none (p : ℕ → Bool) (n : ℕ)
    (h : ∀ i, i < n → p i = false) :
    (List.range n).reverse.find? p = none := by
  rw [List.find?_eq_none]
  intro x hx
  rw [List.mem_reverse, List.mem_range] at hx
  simp [h x hx]

/-! ### Blob-locator lemmas -/

/-- When no sample of the full frame is close, all four extremes stay 0 and
the centroid is `(0, 0)`. -/
lemma center_of_no_close (data : List ℕ) (hlen : data.length = 480 * 640)
    (hno : ∀ i, i < 480 * 640 → ¬ data.getD i 400 < 400) :
    center_of_close_blob data = some (0, 0) := by
  have hcol : ∀ i, colHasClose data i = false := by
    intro i
    rw [colHasClose]
    rw [List.any_eq_false]
    intro r hr
    rw [List.mem_range] at hr
    simp only [isClose, decide_eq_true_eq]
    by_cases hir : r * 640 + i < 480 * 640
    · exact hno _ hir
    · rw [List.getD_eq_default _ _ (by omega)]
      omega
  have hrow : ∀ i, rowHasClose data i = false := by
    intro i
    rw [rowHasClose]
    rw [List.any_eq_false]
    intro c hc
    rw [List.mem_range] at hc
    simp only [isClose, decide_eq_true_eq]
    by_cases hic : i * 640 + c < 480 * 640
    · exact hno _ hic
    · rw [List.getD_eq_default _ _ (by omega)]
      omega
  rw [center_of_close_blob, if_neg (by omega)]
  rw [left_most, right_most, top_most, bottom_most]
  rw [find?_range_none _ _ (fun i _ => hcol i),
    find?_reverse_range_none _ _ (fun i _ => hcol i),
    find?_range_none _ _ (fun i _ => hrow i),
    find?_reverse_range_none _ _ (fun i _ => hrow i)]
  rfl

/-- **C2.** For every 640x480 depth frame in which no sample is strictly
below the threshold 400, `center_of_close_blob` returns the sentinel
`(0, 0)`: all four extremes remain at their initial value 0. -/
theorem center_of_close_blob_no_detection (data : List ℕ)
    (hlen : data.length = 480 * 640)
    (hno : ∀ i, i < 480 * 640 → ¬ data.getD i 400 < 400) :
    center_of_close_blob data = some (0, 0) :=
  center_of_no_close data hlen hno

/-- Witness for C2 at the all-1000 frame (1000 ≥ 400 everywhere). -/
theorem center_of_close_blob_no_detection_witness :
    center_of_close_blob (List.replicate (480 * 640) 1000) = some (0, 0) := by
  apply center_of_close_blob_no_detection
  · rw [List.length_replicate]
  · intro i hi
    rw [getD_replicate _ _ _ i hi]
    omega

/-- **C10.** `center_of_close_blob` is total (no panic) on every slice with
at least `640 * 480 = 307200` samples: all four `Array2D` constructions
succeed and a value is returned. -/
theorem center_of_close_blob_total (data : List ℕ)
    (h : 480 * 640 ≤ data.length) :
    (center_of_close_blob data).isSome = true := by
  rw [center_of_close_blob, if_neg (by omega)]
  rfl

/-- Witness for C10 at the all-zero frame. -/
theorem center_of_close_blob_total_witness :
    (center_of_close_blob (List.replicate (480 * 640) 0)).isSome = true :=
  center_of_close_blob_total _ (by rw [List.length_replicate])

/-- **C1.** For every 640x480 depth frame whose below-threshold samples
(depth strictly below 400) form exactly one contiguous axis-aligned
rectangle spanning columns `l..r` and rows `t..b`, `center_of_close_blob`
returns the midpoint of that rectangle's bounding box,
`((l + r) / 2, (t + b) / 2)`, each coordinate by truncating integer
division. -/
theorem center_of_close_blob_rect (data : List ℕ) (l r t b : ℕ)
    (hlen : data.length = 480 * 640)
    (hlr : l ≤ r) (hr : r < 640) (htb : t ≤ b) (hb : b < 480)
    (hrect : ∀ row, row < 480 → ∀ col, col < 640 →
      (data.getD (row * 640 + col) 400 < 400 ↔
        l ≤ col ∧ col ≤ r ∧ t ≤ row ∧ row ≤ b)) :
    center_of_close_blob data = some ((l + r) / 2, (t + b) / 2) := by
  have hcol : ∀ i, i < 640 → (colHasClose data i = true ↔ l ≤ i ∧ i ≤ r) := by
    intro i hi
    rw [colHasClose, List.any_eq_true]
    constructor
    · rintro ⟨row, hrow, hp⟩
      rw [List.mem_range] at hrow
      rw [isClose, decide_eq_true_eq] at hp
      have h := (hrect row hrow i hi).mp hp
      exact ⟨h.1, h.2.1⟩
    · rintro ⟨h1, h2⟩
      refine ⟨t, List.mem_range.mpr (by omega), ?_⟩
      rw [isClose, decide_eq_true_eq]
      exact (hrect t (by omega) i hi).mpr ⟨h1, h2, le_rfl, htb⟩
  have hrowc : ∀ i, i < 480 → (rowHasClose data i = true ↔ t ≤ i ∧ i ≤ b) := by
    intro i hi
    rw [rowHasClose, List.any_eq_true]
    constructor
    · rintro ⟨col, hcc, hp⟩
      rw [List.mem_range] at hcc
      rw [isClose, decide_eq_true_eq] at hp
      have h := (hrect i hi col hcc).mp hp
      exact ⟨h.2.2.1, h.2.2.2⟩
    · rintro ⟨h1, h2⟩
      refine ⟨l, List.mem_range.mpr (by omega), ?_⟩
      rw [isClose, decide_eq_true_eq]
      exact (hrect i hi l (by omega)).mpr ⟨le_rfl, hlr, h1, h2⟩
  have hcolF : ∀ i, i < 640 → ¬(l ≤ i ∧ i ≤ r) → colHasClose data i = false := by
    intro i hi hn
    cases hcb : colHasClose data i
    · rfl
    · exact absurd ((hcol i hi).mp hcb) hn
  have hrowF : ∀ i, i < 480 → ¬(t ≤ i ∧ i ≤ b) → rowHasClose data i = false := by
    intro i hi hn
    cases hcb : rowHasClose data i
    · rfl
    · exact absurd ((hrowc i hi).mp hcb) hn
  have hL : left_most data = l := by
    rw [left_most, find?_range_eq (colHasClose data) 640 l (by omega)
      ((hcol l (by omega)).mpr ⟨le_rfl, hlr⟩)
      (fun i hil => hcolF i (by omega) (by omega))]
    rfl
  have hR : right_most data = r := by
    rw [right_most, find?_reverse_range_eq (colHasClose data) 640 r
      (by omega) ((hcol r (by omega)).mpr ⟨hlr, le_rfl⟩)
      (fun i hi1 hi2 => hcolF i hi2 (by omega))]
    rfl
  have hT : top_most data = t := by
    rw [top_most, find?_range_eq (rowHasClose data) 480 t (by omega)
      ((hrowc t (by omega)).mpr ⟨le_rfl, htb⟩)
      (fun i hit => hrowF i (by omega) (by omega))]
    rfl
  have hB : bottom_most data = b := by
    rw [bottom_most, find?_reverse_range_eq (rowHasClose data) 480 b
      (by omega) ((hrowc b (by omega)).mpr ⟨htb, le_rfl⟩)
      (fun i hi1 hi2 => hrowF i hi2 (by omega))]
    rfl
  rw [center_of_close_blob, if_neg (by omega), hL, hR, hT, hB]

/-- Witness for C1: the rectangle filling the whole frame (every sample 100),
whose bounding box `0..639 x 0..479` has midpoint `(319, 239)`. -/
theorem center_of_close_blob_rect_witness :
    center_of_close_blob (List.replicate (480 * 640) 100) = some (319, 239) := by
  have h := center_of_close_blob_rect (List.replicate (480 * 640) 100)
    0 639 0 479 (by rw [List.length_replicate]) (by omega) (by omega)
    (by omega) (by omega) ?_
  · rw [h]
  · intro row hrow col hcc
    rw [getD_replicate _ _ _ _ (by omega)]
    constructor
    · intro
      omega
    · intro
      omega

/-! ### Visualizer lemmas -/

lemma depthToPixels_length : ∀ l : List ℕ,
    (depthToPixels l).length = 4 * l.length := by
  intro l
  induction l with
  | nil => rfl
  | cons a rest ih =>
    show (0 :: 0 :: 0 :: (a / 8 % 256) :: depthToPixels rest).length
      = 4 * (a :: rest).length
    rw [List.length_cons, List.length_cons, List.length_cons,
      List.length_cons, List.length_cons, ih]
    ring

lemma getD_cons4 (p q r0 s : ℕ) (l : List ℕ) (n d : ℕ) :
    (p :: q :: r0 :: s :: l).getD (n + 4) d = l.getD n d := by
  show (p :: q :: r0 :: s :: l).getD ((n + 3) + 1) d = l.getD n d
  rw [List.getD_cons_succ]
  show (q :: r0 :: s :: l).getD ((n + 2) + 1) d = l.getD n d
  rw [List.getD_cons_succ]
  show (r0 :: s :: l).getD ((n + 1) + 1) d = l.getD n d
  rw [List.getD_cons_succ]
  rw [List.getD_cons_succ]

lemma depthToPixels_getD : ∀ (l : List ℕ) (i : ℕ), i < l.length →
    (depthToPixels l).getD (4 * i) 7 = 0 ∧
    (depthToPixels l).getD (4 * i + 1) 7 = 0 ∧
    (depthToPixels l).getD (4 * i + 2) 7 = 0 ∧
    (depthToPixels l).getD (4 * i + 3) 7 = l.getD i 0 / 8 % 256 := by
  intro l
  induction l with
  | nil => intro i h; exact absurd h (by simp)
  | cons a rest ih =>
    intro i hi
    cases i with
    | zero => exact ⟨rfl, rfl, rfl, rfl⟩
    | succ j =>
      have hj : j < rest.length := by
        rw [List.length_cons] at hi
        omega
      obtain ⟨h0, h1, h2, h3⟩ := ih j hj
      refine ⟨?_, ?_, ?_, ?_⟩
      · show (0 :: 0 :: 0 :: (a / 8 % 256) :: depthToPixels rest).getD
            (4 * (j + 1)) 7 = 0
        rw [show 4 * (j + 1) = 4 * j + 4 from by ring, getD_cons4]
        exact h0
      · show (0 :: 0 :: 0 :: (a / 8 % 256) :: depthToPixels rest).getD
            (4 * (j + 1) + 1) 7 = 0
        rw [show 4 * (j + 1) + 1 = (4 * j + 1) + 4 from by ring, getD_cons4]
        exact h1
      · show (0 :: 0 :: 0 :: (a / 8 % 256) :: depthToPixels rest).getD
            (4 * (j + 1) + 2) 7 = 0
        rw [show 4 * (j + 1) + 2 = (4 * j + 2) + 4 from by ring, getD_cons4]
        exact h2
      · show (0 :: 0 :: 0 :: (a / 8 % 256) :: depthToPixels rest).getD
            (4 * (j + 1) + 3) 7 = (a :: rest).getD (j + 1) 0 / 8 % 256
        rw [show 4 * (j + 1) + 3 = (4 * j + 3) + 4 from by ring, getD_cons4,
          List.getD_cons_succ]
        exact h3

/-- **C4 (amended).** For every non-empty depth frame the produced pixel
buffer has `4 * sample_count` bytes and, for the `i`-th sample in row-major
order, bytes `(0, 0, 0, a)` with `a = (sample / 8) % 256`: the `as u8` cast
truncates the quotient to its low byte, it does not clamp to 255. -/
theorem update_image_alpha_mod256 (data buf : List ℕ)
    (hne : data.length ≠ 0) (i : ℕ) (hi : i < data.length) :
    (update_image_from_depth_data data buf).length = 4 * data.length ∧
    (update_image_from_depth_data data buf).getD (4 * i) 7 = 0 ∧
    (update_image_from_depth_data data buf).getD (4 * i + 1) 7 = 0 ∧
    (update_image_from_depth_data data buf).getD (4 * i + 2) 7 = 0 ∧
    (update_image_from_depth_data data buf).getD (4 * i + 3) 7
      = data.getD i 0 / 8 % 256 := by
  rw [update_image_from_depth_data, if_neg hne]
  obtain ⟨h0, h1, h2, h3⟩ := depthToPixels_getD data i hi
  exact ⟨depthToPixels_length data, h0, h1, h2, h3⟩

/-- Witness for the amended C4 at the one-sample frame `[16]`: the pixel is
`(0, 0, 0, 2)`. -/
theorem update_image_alpha_mod256_witness :
    (update_image_from_depth_data [16] []).getD 3 7 = 2 := by
  have h := (update_image_alpha_mod256 [16] [] (by decide) 0 (by decide)).2.2.2.2
  rw [show (4 * 0 + 3 : ℕ) = 3 from by norm_num] at h
  rw [h]
  decide

/-- Counterexample to C4 as stated: on the all-2048 frame (a legal `u16`
sample), the alpha byte of the first pixel is `(2048 / 8) % 256 = 0`,
whereas the claim's clamped formula gives `min (2048 / 8) 255 = 255`. -/
theorem update_image_alpha_not_clamped :
    (update_image_from_depth_data (List.replicate (480 * 640) 2048) []).getD 3 7
      ≠ specAlpha 2048 := by
  have hne : (List.replicate (480 * 640) 2048).length ≠ 0 := by
    rw [List.length_replicate]
    norm_num
  rw [update_image_from_depth_data, if_neg hne]
  have h := (depthToPixels_getD (List.replicate (480 * 640) 2048) 0
    (by rw [List.length_replicate]; norm_num)).2.2.2
  rw [show (4 * 0 + 3 : ℕ) = 3 from by norm_num] at h
  rw [h, getD_replicate _ _ _ _ (by norm_num), specAlpha]
  decide

/-! ### Coordinate-mapper theorems -/

/-- **C5.** For every screen position `(x, y)` with `x ≥ 0.1` and all camera
matrices, the published world position is the truncation to 2D of
`M * P⁻¹` applied (with perspective correction) to
`(ndc.x, ndc.y, -1)`, where `ndc = ((x, |y - 480|) / (640, 480)) * 2 - (1, 1)`:
vertical flip, then normalization, then inverse projection at the fixed
depth plane `z = -1`, then dropping the third coordinate. -/
theorem coordinateMapper_formula (x y : ℚ) (m pinv : Mat4)
    (hx : 1 / 10 ≤ x) :
    coordinateMapper x y m pinv =
      some ⟨(projectPoint3 (mat4Mul m pinv)
               ⟨(x / 640) * 2 - 1, (|y - 480| / 480) * 2 - 1, -1⟩).x,
            (projectPoint3 (mat4Mul m pinv)
               ⟨(x / 640) * 2 - 1, (|y - 480| / 480) * 2 - 1, -1⟩).y⟩ := by
  unfold coordinateMapper
  show (if x < 1 / 10 then none
        else some (mapScreenToWorld ⟨x, |y - 480|⟩ m pinv)) = _
  rw [if_neg (not_lt.mpr hx)]
  rfl

/-- Witness for C5: screen position `(320, 240)` with identity matrices maps
to the world origin. -/
theorem coordinateMapper_formula_witness :
    (1 : ℚ) / 10 ≤ 320 ∧ coordinateMapper 320 240 id4 id4 = some ⟨0, 0⟩ := by
  refine ⟨by norm_num, ?_⟩
  rw [coordinateMapper_formula 320 240 id4 id4 (by norm_num)]
  have habs : |(240 : ℚ) - 480| = 240 := by
    rw [abs_sub_comm, abs_of_nonneg (by norm_num : (0 : ℚ) ≤ 480 - 240)]
    norm_num
  rw [habs]
  simp only [projectPoint3, mulVec4, mat4Mul, id4, Option.some.injEq,
    Vec2.mk.injEq]
  norm_num

/-- **C6.** When the detected screen position of the held frame has
`x < 0.1` (the flip does not change `x`), the mapping stage rejects it and
the crosshair translation is left unchanged for the tick. -/
theorem move_crosshair_rejects_small_x (data : List ℕ) (m pinv : Mat4)
    (cur : Vec2) (cx cy : ℕ)
    (hc : center_of_close_blob data = some (cx, cy))
    (hx : (cx : ℚ) < 1 / 10) :
    move_crosshair_to_pos data m pinv cur = some cur := by
  unfold move_crosshair_to_pos
  by_cases hl : data.length = 0
  · rw [if_pos hl]
  · rw [if_neg hl, hc]
    show (match coordinateMapper (cx : ℚ) (cy : ℚ) m pinv with
          | none => some cur
          | some w => some w) = some cur
    unfold coordinateMapper
    show (match (if (cx : ℚ) < 1 / 10 then none
                 else some (mapScreenToWorld ⟨(cx : ℚ), |(cy : ℚ) - 480|⟩
                   m pinv)) with
          | none => some cur
          | some w => some w) = some cur
    rw [if_pos hx]

/-- Witness for C6: on the all-1000 frame the sentinel `(0, 0)` is detected,
`0 < 0.1`, and the crosshair stays at `(5, 7)`. -/
theorem move_crosshair_rejects_small_x_witness :
    move_crosshair_to_pos (List.replicate (480 * 640) 1000) id4 id4 ⟨5, 7⟩
      = some ⟨5, 7⟩ := by
  apply move_crosshair_rejects_small_x _ _ _ _ 0 0
  · apply center_of_no_close
    · rw [List.length_replicate]
    · intro i hi
      rw [getD_replicate _ _ _ i hi]
      omega
  · norm_num

/-- **C7.** On a tick whose held frame is empty (length 0), the visualizer
leaves the pixel buffer completely unchanged and the blob-location and
mapping stages are skipped, leaving the crosshair translation unchanged. -/
theorem empty_frame_no_update (data : List ℕ) (h : data.length = 0)
    (buf : List ℕ) (m pinv : Mat4) (cur : Vec2) :
    update_image_from_depth_data data buf = buf ∧
    move_crosshair_to_pos data m pinv cur = some cur := by
  constructor
  · rw [update_image_from_depth_data, if_pos h]
  · unfold move_crosshair_to_pos
    rw [if_pos h]

/-- Witness for C7 at the empty frame. -/
theorem empty_frame_no_update_witness :
    update_image_from_depth_data [] [3] = [3] ∧
    move_crosshair_to_pos [] id4 id4 ⟨1, 2⟩ = some ⟨1, 2⟩ :=
  empty_frame_no_update [] rfl [3] id4 id4 ⟨1, 2⟩

/-! ### Pipeline-tick lemmas -/

lemma update_image_idem (d b : List ℕ) :
    update_image_from_depth_data d (update_image_from_depth_data d b)
      = update_image_from_depth_data d b := by
  by_cases h : d.length = 0
  · simp only [update_image_from_depth_data, if_pos h]
  · simp only [update_image_from_depth_data, if_neg h]

lemma move_crosshair_eq_of_center_none (d : List ℕ) (m pinv : Mat4)
    (cur : Vec2) (hl : ¬ d.length = 0)
    (hc : center_of_close_blob d = none) :
    move_crosshair_to_pos d m pinv cur = none := by
  unfold move_crosshair_to_pos
  rw [if_neg hl, hc]

lemma move_crosshair_eq_of_center_some (d : List ℕ) (m pinv : Mat4)
    (cur : Vec2) (c : ℕ × ℕ) (hl : ¬ d.length = 0)
    (hc : center_of_close_blob d = some c) :
    move_crosshair_to_pos d m pinv cur =
      match coordinateMapper (c.1 : ℚ) (c.2 : ℚ) m pinv with
      | none => some cur
      | some w => some w := by
  unfold move_crosshair_to_pos
  rw [if_neg hl, hc]

lemma move_crosshair_stable (d : List ℕ) (m pinv : Mat4) (c0 c1 : Vec2)
    (h : move_crosshair_to_pos d m pinv c0 = some c1) :
    move_crosshair_to_pos d m pinv c1 = some c1 := by
  by_cases hl : d.length = 0
  · unfold move_crosshair_to_pos
    rw [if_pos hl]
  · cases hcb : center_of_close_blob d with
    | none =>
      rw [move_crosshair_eq_of_center_none d m pinv c0 hl hcb] at h
      exact Option.noConfusion h
    | some c =>
      rw [move_crosshair_eq_of_center_some d m pinv c0 c hl hcb] at h
      rw [move_crosshair_eq_of_center_some d m pinv c1 c hl hcb]
      cases hm : coordinateMapper (c.1 : ℚ) (c.2 : ℚ) m pinv with
      | none => rfl
      | some w =>
        rw [hm] at h
        exact h

lemma tick_eq_none (recv : Option (List ℕ)) (m pinv : Mat4)
    (s : PipelineState)
    (h : move_crosshair_to_pos (read_depth_data recv s.held) m pinv
      s.crosshair = none) :
    tick recv m pinv s = none := by
  unfold tick
  rw [h]

lemma tick_eq_some (recv : Option (List ℕ)) (m pinv : Mat4)
    (s : PipelineState) (c : Vec2)
    (h : move_crosshair_to_pos (read_depth_data recv s.held) m pinv
      s.crosshair = some c) :
    tick recv m pinv s =
      some ⟨read_depth_data recv s.held,
            update_image_from_depth_data (read_depth_data recv s.held)
              s.buffer,
            c⟩ := by
  unfold tick
  rw [h]

/-- **C8.** When the non-blocking receive yields no new frame, the held
frame is kept equal to its previous value and a full tick completes leaving
the pipeline state (pixel buffer and crosshair) exactly as the previous
tick left it. -/
theorem tick_no_new_frame_unchanged (recv : Option (List ℕ))
    (m pinv : Mat4) (s0 s1 : PipelineState)
    (h : tick recv m pinv s0 = some s1) :
    read_depth_data none s1.held = s1.held ∧
    tick none m pinv s1 = some s1 := by
  refine ⟨rfl, ?_⟩
  cases hmv : move_crosshair_to_pos (read_depth_data recv s0.held) m pinv
      s0.crosshair with
  | none =>
    rw [tick_eq_none recv m pinv s0 hmv] at h
    exact Option.noConfusion h
  | some c =>
    rw [tick_eq_some recv m pinv s0 c hmv] at h
    have hs1 : (⟨read_depth_data recv s0.held,
        update_image_from_depth_data (read_depth_data recv s0.held) s0.buffer,
        c⟩ : PipelineState) = s1 := Option.some.inj h
    subst hs1
    have hm2 : move_crosshair_to_pos
        (read_depth_data none (read_depth_data recv s0.held)) m pinv c
        = some c :=
      move_crosshair_stable (read_depth_data recv s0.held) m pinv
        s0.crosshair c hmv
    rw [tick_eq_some none m pinv
      ⟨read_depth_data recv s0.held,
       update_image_from_depth_data (read_depth_data recv s0.held) s0.buffer,
       c⟩ c hm2]
    show some (⟨read_depth_data recv s0.held,
      update_image_from_depth_data (read_depth_data recv s0.held)
        (update_image_from_depth_data (read_depth_data recv s0.held)
          s0.buffer),
      c⟩ : PipelineState) = _
    rw [update_image_idem]

/-- Witness for C8: a tick from the empty initial state with no frame
arriving returns exactly the same state. -/
theorem tick_no_new_frame_unchanged_witness :
    read_depth_data none ([] : List ℕ) = ([] : List ℕ) ∧
    tick none id4 id4 ⟨[], [], ⟨0, 0⟩⟩ = some ⟨[], [], ⟨0, 0⟩⟩ :=
  tick_no_new_frame_unchanged none id4 id4 ⟨[], [], ⟨0, 0⟩⟩ ⟨[], [], ⟨0, 0⟩⟩
    (by decide)

/-! ### Tilt-command theorems -/

/-- **C9.** For every current tilt `d`, a "tilt up" key event issues exactly
one `set_tilt_degree` command, with argument `d + 5`, and a "tilt down" key
event issues exactly one `set_tilt_degree` command, with argument `d - 5`;
on success the device tilt reads the new value. -/
theorem keyboard_tilt_step (dev : Device) (hget : dev.getFails = false)
    (hup : dev.setFails (dev.tilt + 5) = false)
    (hdown : dev.setFails (dev.tilt - 5) = false) :
    keyboard_input ⟨false, true⟩ dev
      = some ({ dev with tilt := dev.tilt + 5 }, [dev.tilt + 5]) ∧
    keyboard_input ⟨true, false⟩ dev
      = some ({ dev with tilt := dev.tilt - 5 }, [dev.tilt - 5]) := by
  constructor <;>
    simp [keyboard_input, get_tilt_degree, set_tilt_degree, hget, hup, hdown]

/-- Witness for C9, the spec's scenario: from tilt 0°, "tilt up" issues
`set_tilt_degree 5` and the tilt reads 5°; from 5°, a following "tilt down"
issues `set_tilt_degree 0` and the tilt reads 0° again. -/
theorem keyboard_tilt_step_witness :
    keyboard_input ⟨false, true⟩ ⟨0, false, fun _ => false⟩
      = some (⟨0 + 5, false, fun _ => false⟩, [0 + 5]) ∧
    keyboard_input ⟨true, false⟩ ⟨0 + 5, false, fun _ => false⟩
      = some (⟨0 + 5 - 5, false, fun _ => false⟩, [0 + 5 - 5]) :=
  ⟨(keyboard_tilt_step ⟨0, false, fun _ => false⟩ rfl rfl rfl).1,
   (keyboard_tilt_step ⟨0 + 5, false, fun _ => false⟩ rfl rfl rfl).2⟩

/-- Counterexample to C3 as stated: against a device whose
`set_tilt_degree` always fails, a "tilt up" key event makes
`keyboard_input` panic (the `unwrap` on `set_tilt_degree`), aborting the
run (`none`) instead of recovering locally. -/
theorem keyboard_input_panics_on_failure :
    keyboard_input ⟨false, true⟩ ⟨0, false, fun _ => true⟩ = none := by
  simp [keyboard_input, get_tilt_degree, set_tilt_degree]

/-- **C3 (amended).** When a tilt device command fails on a tilt-up or
tilt-down key event — whether it is `get_tilt_degree` (the `.unwrap()`s on
lines 278/283) or `set_tilt_degree` (the `.unwrap()`s on lines 279/284)
that fails — the failure is not recovered: the `.unwrap()` on the command
result panics and crashes the pipeline.  (No successful set command was
executed at that point, so the device itself still reads its pre-command
tilt when the crash happens.) -/
theorem keyboard_input_failure_propagates (dev : Device) :
    (dev.getFails = true →
      keyboard_input ⟨false, true⟩ dev = none ∧
      keyboard_input ⟨true, false⟩ dev = none) ∧
    (dev.getFails = false → dev.setFails (dev.tilt + 5) = true →
      keyboard_input ⟨false, true⟩ dev = none) ∧
    (dev.getFails = false → dev.setFails (dev.tilt - 5) = true →
      keyboard_input ⟨true, false⟩ dev = none) := by
  refine ⟨fun hget => ⟨?_, ?_⟩, fun hget hset => ?_, fun hget hset => ?_⟩
  · simp [keyboard_input, get_tilt_degree, hget]
  · simp [keyboard_input, get_tilt_degree, hget]
  · simp [keyboard_input, get_tilt_degree, set_tilt_degree, hget, hset]
  · simp [keyboard_input, get_tilt_degree, set_tilt_degree, hget, hset]

/-- Witness for the amended C3: a device whose `get_tilt_degree` fails
panics on either key event, and a device whose `set_tilt_degree` fails
panics on either key event. -/
theorem keyboard_input_failure_propagates_witness :
    keyboard_input ⟨false, true⟩ ⟨3, true, fun _ => false⟩ = none ∧
    keyboard_input ⟨true, false⟩ ⟨3, true, fun _ => false⟩ = none ∧
    keyboard_input ⟨false, true⟩ ⟨2, false, fun _ => true⟩ = none ∧
    keyboard_input ⟨true, false⟩ ⟨2, false, fun _ => true⟩ = none :=
  ⟨((keyboard_input_failure_propagates ⟨3, true, fun _ => false⟩).1 rfl).1,
   ((keyboard_input_failure_propagates ⟨3, true, fun _ => false⟩).1 rfl).2,
   (keyboard_input_failure_propagates ⟨2, false, fun _ => true⟩).2.1 rfl rfl,
   (keyboard_input_failure_propagates ⟨2, false, fun _ => true⟩).2.2 rfl rfl⟩
